import Mathlib

/-!
# Verification of the nuvoprog core against its specification

Shallow embedding of the nuvoprog microcontroller programmer:
* the Intel-hex style record codec (package ihex),
* the N76E003 bit-packed configuration codec (package n76),
* the fixed-frame transport protocol and device session (package protocol),
* the image-composition argument validation (package cmd).

Bytes and characters are modelled as `Nat` with explicit `% 256` where the Go
code truncates to `byte`; 32-bit arithmetic uses explicit `% 2^32`.  Fallible
operations return `Option`.
-/

namespace Nuvoprog

/-! ## ihex codec: low-level hex reading (from readHexByte / readHexWord) -/

/-- One hex digit decoded per the three branches of `readHexByte`:
digits `0`-`9`, upper `A`-`F`, lower `a`-`f`; anything else is an
invalid-hex-digit error (`none`). -/
def hexDigit (c : Nat) : Option Nat :=
  if 48 ≤ c ∧ c ≤ 57 then some (c - 48)
  else if 65 ≤ c ∧ c ≤ 70 then some (c - 65 + 10)
  else if 97 ≤ c ∧ c ≤ 102 then some (c - 97 + 10)
  else none

/-- `readHexByte`: consume two characters, decode both nibbles; end of stream
or a non-hex character is an error. -/
def ReadHexByte : List Nat → Option (Nat × List Nat)
  | c0 :: c1 :: rest =>
    match hexDigit c0, hexDigit c1 with
    | some h, some l => some (16 * h + l, rest)
    | _, _ => none
  | _ => none

/-- `readHexWord`: two hex bytes, big-endian. -/
def ReadHexWord (s : List Nat) : Option (Nat × List Nat) :=
  match ReadHexByte s with
  | none => none
  | some (b0, s1) =>
    match ReadHexByte s1 with
    | none => none
    | some (b1, s2) => some (256 * b0 + b1, s2)

/-- The payload loop of `ReadPacket`: read `n` successive hex bytes. -/
def ReadHexBytes : Nat → List Nat → Option (List Nat × List Nat)
  | 0, s => some ([], s)
  | n + 1, s =>
    match ReadHexByte s with
    | none => none
    | some (b, s1) =>
      match ReadHexBytes n s1 with
      | none => none
      | some (bs, s2) => some (b :: bs, s2)

/-! ## ihex codec: packets (from Packet, ReadPacket, WritePacket) -/

/-- `ihex.Packet`. `Ty` is the raw record-type byte (named `Type` in the
source, which is a keyword here) (0 = Data, 1 = EOF,
2 = ExtendedSegmentAddress, 3 = StartSegmentAddress,
4 = ExtendedLinearAddress, 5 = StartLinearAddress). -/
structure Packet where
  Ty : Nat
  Address : Nat
  Data : List Nat
deriving DecidableEq, Repr

/-- `ihex.DataPacket`. -/
def DataPacket (addr : Nat) (data : List Nat) : Packet :=
  { Ty := 0, Address := addr, Data := data }

/-- `ihex.EOFPacket`. -/
def EOFPacket : Packet := { Ty := 1, Address := 0, Data := [] }

/-- `ihex.ExtendedLinearAddressPacket`: payload is the two bytes of `seg`. -/
def ExtendedLinearAddressPacket (seg : Nat) : Packet :=
  { Ty := 4, Address := 0, Data := [seg / 256 % 256, seg % 256] }

/-- The checksum-accumulating 8-bit sum: every byte is added modulo 256,
matching Go `uint8` accumulation. -/
def sum8 (l : List Nat) : Nat := l.foldl (fun a b => (a + b) % 256) 0

/-- The body of `ReadPacket` after the `:` introducer: length byte, address
word, type byte, `length` payload bytes, checksum byte (validated as
`-expsum == recsum` in 8-bit arithmetic), then an optional single CR/LF
terminator (end of stream is also accepted). -/
def ReadPacketBody (s : List Nat) : Option (Packet × List Nat) :=
  match ReadHexByte s with
  | none => none
  | some (length, s1) =>
    match ReadHexWord s1 with
    | none => none
    | some (addr, s2) =>
      match ReadHexByte s2 with
      | none => none
      | some (ptype, s3) =>
        match ReadHexBytes length s3 with
        | none => none
        | some (payload, s4) =>
          match ReadHexByte s4 with
          | none => none
          | some (recsum, s5) =>
            let expsum := sum8 ([length, addr / 256, addr % 256, ptype] ++ payload)
            if (256 - expsum) % 256 ≠ recsum then none
            else
              match s5 with
              | [] => some (⟨ptype, addr, payload⟩, [])
              | c :: s6 =>
                if c = 13 ∨ c = 10 then some (⟨ptype, addr, payload⟩, s6)
                else none

/-- `ihex.ReadPacket`: skip leading line endings, require the `:` introducer
(character 58), then parse the record body. -/
def ReadPacket : List Nat → Option (Packet × List Nat)
  | [] => none
  | c :: rest =>
    if c = 10 ∨ c = 13 then ReadPacket rest
    else if c = 58 then ReadPacketBody rest
    else none

/-- Hex-digit lookup table `hlut = "0123456789ABCDEF"` (character codes). -/
def hlut : Nat → Nat
  | 0 => 48 | 1 => 49 | 2 => 50 | 3 => 51 | 4 => 52
  | 5 => 53 | 6 => 54 | 7 => 55 | 8 => 56 | 9 => 57
  | 10 => 65 | 11 => 66 | 12 => 67 | 13 => 68 | 14 => 69 | 15 => 70
  | _ => 0

/-- `appendHexByte`'s character pair for one byte: `hlut[b>>4], hlut[b&0xF]`. -/
def hexByte (b : Nat) : List Nat := [hlut (b / 16), hlut (b % 16)]

/-- The bytes summed and emitted by `WritePacket` before the checksum:
`byte(len(p.Data))`, `byte(p.Address>>8)`, `byte(p.Address)`, `byte(p.Type)`,
then the payload bytes. -/
def bodyBytes (p : Packet) : List Nat :=
  [p.Data.length % 256, p.Address / 256 % 256, p.Address % 256, p.Ty % 256]
    ++ p.Data.map (· % 256)

/-- The checksum byte `0 - sum` emitted by `WritePacket` (8-bit negation). -/
def packetChecksum (p : Packet) : Nat := (256 - sum8 (bodyBytes p)) % 256

/-- `ihex.WritePacket`: colon, hex pairs for length / address / type /
payload / checksum, then a newline. -/
def WritePacket (p : Packet) : List Nat :=
  58 :: ((bodyBytes p ++ [packetChecksum p]).flatMap hexByte) ++ [10]

example : WritePacket { Ty := 0, Address := 0x10, Data := [0xAA] } =
    [58, 48, 49, 48, 48, 49, 48, 48, 48, 65, 65, 52, 53, 10] := by decide

example :
    ReadPacket [58, 48, 49, 48, 48, 49, 48, 48, 48, 65, 65, 52, 53, 10] =
      some ({ Ty := 0, Address := 0x10, Data := [0xAA] }, []) := by decide

/-! ## Parsing lemmas for hex-encoded byte runs -/

/-- `HexEnc s bs`: the character string `s` consists of exactly one
hex-digit pair per byte of `bs`, in order. -/
inductive HexEnc : List Nat → List Nat → Prop
  | nil : HexEnc [] []
  | cons {c0 c1 h l : Nat} {s bs : List Nat} :
      hexDigit c0 = some h → hexDigit c1 = some l → HexEnc s bs →
      HexEnc (c0 :: c1 :: s) ((16 * h + l) :: bs)

theorem hexDigit_hlut : ∀ d < 16, hexDigit (hlut d) = some d := by decide

theorem hexDigit_lt {c v : Nat} (h : hexDigit c = some v) : v < 16 := by
  unfold hexDigit at h
  split_ifs at h <;> simp_all <;> omega

theorem hexDigit_ge {c v : Nat} (h : hexDigit c = some v) : 48 ≤ c := by
  unfold hexDigit at h
  split_ifs at h <;> simp_all <;> omega

theorem henc_hexByte {b : Nat} (hb : b < 256) : HexEnc (hexByte b) [b] := by
  have h1 : hexDigit (hlut (b / 16)) = some (b / 16) := hexDigit_hlut _ (by omega)
  have h2 : hexDigit (hlut (b % 16)) = some (b % 16) := hexDigit_hlut _ (by omega)
  have := HexEnc.cons h1 h2 HexEnc.nil
  rwa [Nat.div_add_mod b 16] at this

theorem henc_append {s1 s2 b1 b2 : List Nat}
    (h1 : HexEnc s1 b1) (h2 : HexEnc s2 b2) : HexEnc (s1 ++ s2) (b1 ++ b2) := by
  induction h1 with
  | nil => exact h2
  | cons e1 e2 _ ih => exact HexEnc.cons e1 e2 ih

theorem henc_flatMap {bs : List Nat} (h : ∀ b ∈ bs, b < 256) :
    HexEnc (bs.flatMap hexByte) bs := by
  induction bs with
  | nil => exact HexEnc.nil
  | cons b bs ih =>
    have : HexEnc (hexByte b ++ bs.flatMap hexByte) ([b] ++ bs) :=
      henc_append (henc_hexByte (h b (by simp))) (ih fun x hx => h x (by simp [hx]))
    simpa using this

theorem henc_nil_right {s : List Nat} (h : HexEnc s []) : s = [] := by
  cases h; rfl

theorem henc_length {s bs : List Nat} (h : HexEnc s bs) : s.length = 2 * bs.length := by
  induction h with
  | nil => rfl
  | cons _ _ _ ih => simp [ih]; omega

theorem henc_bytes_lt {s bs : List Nat} (h : HexEnc s bs) : ∀ b ∈ bs, b < 256 := by
  induction h with
  | nil => simp
  | cons e1 e2 _ ih =>
    intro b hb
    rcases List.mem_cons.1 hb with h' | h'
    · have := hexDigit_lt e1; have := hexDigit_lt e2; omega
    · exact ih b h'

theorem henc_split {b1 b2 s : List Nat} (h : HexEnc s (b1 ++ b2)) :
    ∃ s1 s2, s = s1 ++ s2 ∧ HexEnc s1 b1 ∧ HexEnc s2 b2 := by
  induction b1 generalizing s with
  | nil => exact ⟨[], s, rfl, HexEnc.nil, h⟩
  | cons x b1 ih =>
    cases h with
    | cons e1 e2 htail =>
      obtain ⟨s1, s2, rfl, hs1, hs2⟩ := ih htail
      exact ⟨_ :: _ :: s1, s2, rfl, HexEnc.cons e1 e2 hs1, hs2⟩

theorem ReadHexBytes_henc {s bs : List Nat} (h : HexEnc s bs) (r : List Nat) :
    ReadHexBytes bs.length (s ++ r) = some (bs, r) := by
  induction h generalizing r with
  | nil => rfl
  | cons e1 e2 _ ih =>
    simp only [List.length_cons, List.cons_append, ReadHexBytes, ReadHexByte, e1, e2, ih]

theorem ReadHexByte_henc {s : List Nat} {b : Nat} (h : HexEnc s [b]) (r : List Nat) :
    ReadHexByte (s ++ r) = some (b, r) := by
  cases h with
  | cons e1 e2 htail =>
    rw [henc_nil_right htail]
    simp only [List.cons_append, List.nil_append, ReadHexByte, e1, e2]

theorem ReadHexWord_henc {s : List Nat} {b0 b1 : Nat} (h : HexEnc s [b0, b1])
    (r : List Nat) : ReadHexWord (s ++ r) = some (256 * b0 + b1, r) := by
  obtain ⟨s1, s2, rfl, h1, h2⟩ := @henc_split [b0] [b1] _ h
  simp only [ReadHexWord, List.append_assoc, ReadHexByte_henc h1, ReadHexByte_henc h2]

theorem sum8_eq_sum_mod (l : List Nat) : sum8 l = l.sum % 256 := by
  have gen : ∀ (l : List Nat) (a : Nat),
      l.foldl (fun a b => (a + b) % 256) (a % 256) = (a + l.sum) % 256 := by
    intro l
    induction l with
    | nil => intro a; simp
    | cons x l ih =>
      intro a
      have h1 : (a % 256 + x) % 256 = (a + x) % 256 := by omega
      simp only [List.foldl_cons, List.sum_cons, h1, ih (a + x), Nat.add_assoc]
  have h0 := gen l 0
  simpa [sum8] using h0

theorem henc_cons_inv {s : List Nat} {b : Nat} {bs : List Nat} (h : HexEnc s (b :: bs)) :
    ∃ c0 c1 h0 l0 s', s = c0 :: c1 :: s' ∧ hexDigit c0 = some h0 ∧
      hexDigit c1 = some l0 ∧ b = 16 * h0 + l0 ∧ HexEnc s' bs := by
  cases h with
  | cons e1 e2 ht => exact ⟨_, _, _, _, _, rfl, e1, e2, rfl, ht⟩

/-- Successful decode of one record whose wire bytes are hex-encoded by `s`,
with a matching checksum and a trailing newline. -/
theorem ReadPacketBody_henc_ok {s : List Nat} {L hi lo t ck : Nat} {payload : List Nat}
    (hs : HexEnc s ([L, hi, lo, t] ++ payload ++ [ck]))
    (hlen : payload.length = L)
    (hck : ck = (256 - sum8 ([L, hi, lo, t] ++ payload)) % 256) :
    ReadPacketBody (s ++ [10]) = some (⟨t, 256 * hi + lo, payload⟩, []) := by
  have hs1 : HexEnc s ([L] ++ ([hi, lo] ++ ([t] ++ (payload ++ [ck])))) := by
    simpa using hs
  obtain ⟨sL, s1, rfl, hL, h1⟩ := henc_split hs1
  obtain ⟨sA, s2, rfl, hA, h2⟩ := henc_split h1
  obtain ⟨sT, s3, rfl, hT, h3⟩ := henc_split h2
  obtain ⟨sP, sC, rfl, hP, hC⟩ := henc_split h3
  have hlo : lo < 256 := henc_bytes_lt hA lo (by simp)
  have hdiv : (256 * hi + lo) / 256 = hi := by omega
  have hmod : (256 * hi + lo) % 256 = lo := by omega
  have hPB := ReadHexBytes_henc hP (sC ++ [10])
  rw [hlen] at hPB
  simp only [List.append_assoc, ReadPacketBody, ReadHexByte_henc hL,
    ReadHexWord_henc hA, ReadHexByte_henc hT, hPB, ReadHexByte_henc hC,
    hdiv, hmod, hck]
  simp

/-- A record whose recorded checksum does not match the 8-bit complement of
the running sum is rejected, whatever follows. -/
theorem ReadPacketBody_henc_badsum {s r : List Nat} {L hi lo t ck : Nat}
    {payload : List Nat}
    (hs : HexEnc s ([L, hi, lo, t] ++ payload ++ [ck]))
    (hlen : payload.length = L)
    (hck : (256 - sum8 ([L, hi, lo, t] ++ payload)) % 256 ≠ ck) :
    ReadPacketBody (s ++ r) = none := by
  have hs1 : HexEnc s ([L] ++ ([hi, lo] ++ ([t] ++ (payload ++ [ck])))) := by
    simpa using hs
  obtain ⟨sL, s1, rfl, hL, h1⟩ := henc_split hs1
  obtain ⟨sA, s2, rfl, hA, h2⟩ := henc_split h1
  obtain ⟨sT, s3, rfl, hT, h3⟩ := henc_split h2
  obtain ⟨sP, sC, rfl, hP, hC⟩ := henc_split h3
  have hlo : lo < 256 := henc_bytes_lt hA lo (by simp)
  have hdiv : (256 * hi + lo) / 256 = hi := by omega
  have hmod : (256 * hi + lo) % 256 = lo := by omega
  have hPB := ReadHexBytes_henc hP (sC ++ r)
  rw [hlen] at hPB
  have hck' : (256 - sum8 (L :: hi :: lo :: t :: payload)) % 256 ≠ ck := by
    simpa using hck
  simp only [List.append_assoc, ReadPacketBody, ReadHexByte_henc hL,
    ReadHexWord_henc hA, ReadHexByte_henc hT, hPB, ReadHexByte_henc hC,
    hdiv, hmod]
  simp [hck']

/-- If the declared length is so short that at least one full wire byte is
left over after the checksum position, decoding fails: either the checksum
comparison fails, or the terminator position holds a hex digit. -/
theorem ReadPacketBody_henc_shortlen {s : List Nat} {newL hi lo t : Nat}
    {rest : List Nat}
    (hs : HexEnc s ([newL, hi, lo, t] ++ rest))
    (hlt : newL + 2 ≤ rest.length) :
    ReadPacketBody (s ++ [10]) = none := by
  have hs1 : HexEnc s ([newL] ++ ([hi, lo] ++ ([t] ++ (rest.take newL ++ rest.drop newL)))) := by
    simpa using hs
  obtain ⟨sL, s1, rfl, hL, h1⟩ := henc_split hs1
  obtain ⟨sA, s2, rfl, hA, h2⟩ := henc_split h1
  obtain ⟨sT, s3, rfl, hT, h3⟩ := henc_split h2
  obtain ⟨sP, sD, rfl, hP, hD⟩ := henc_split h3
  have htl : (rest.take newL).length = newL :=
    List.length_take_of_le (by omega)
  have hdlen : (rest.drop newL).length = rest.length - newL := List.length_drop _ _
  obtain ⟨ck', rest2, hdrop⟩ : ∃ b l, rest.drop newL = b :: l := by
    cases hrd : rest.drop newL with
    | nil => rw [hrd] at hdlen; simp at hdlen; omega
    | cons b l => exact ⟨b, l, rfl⟩
  rw [hdrop] at hD
  obtain ⟨c0, c1, h0, l0, sD', rfl, e0, e1, rfl, hD'⟩ := henc_cons_inv hD
  obtain ⟨ck2, rest3, hrest2⟩ : ∃ b l, rest2 = b :: l := by
    cases hrd : rest2 with
    | nil =>
      rw [hrd] at hdrop
      have := congrArg List.length hdrop
      simp [hdlen] at this; omega
    | cons b l => exact ⟨b, l, rfl⟩
  rw [hrest2] at hD'
  obtain ⟨d0, d1, h2', l2, sD2, rfl, f0, f1, rfl, _⟩ := henc_cons_inv hD'
  have hd0 : 48 ≤ d0 := hexDigit_ge f0
  have hPB := ReadHexBytes_henc hP ((c0 :: c1 :: d0 :: d1 :: sD2) ++ [10])
  rw [htl] at hPB
  have hCK : ReadHexByte ((c0 :: c1 :: d0 :: d1 :: sD2) ++ [10]) =
      some (16 * h0 + l0, (d0 :: d1 :: sD2) ++ [10]) := by
    simp only [List.cons_append, ReadHexByte, e0, e1]
  simp only [List.append_assoc, ReadPacketBody, ReadHexByte_henc hL,
    ReadHexWord_henc hA, ReadHexByte_henc hT, hPB, hCK]
  split
  · rfl
  · simp only [List.cons_append]
    have : ¬(d0 = 13 ∨ d0 = 10) := by omega
    simp [this]

theorem ReadHexBytes_henc_short {s bs : List Nat} (h : HexEnc s bs) :
    ∀ n, bs.length < n → ReadHexBytes n (s ++ [10]) = none := by
  induction h with
  | nil =>
    intro n hn
    match n, hn with
    | n + 1, _ => simp [ReadHexBytes, ReadHexByte]
  | cons e1 e2 ht ih =>
    intro n hn
    match n, hn with
    | Nat.succ m, hn =>
      have hih := ih m (by simp only [List.length_cons] at hn; omega)
      simp only [List.cons_append, ReadHexBytes, ReadHexByte, e1, e2, hih]

/-- If the declared length reaches past the last wire byte, decoding fails
while reading the payload or the checksum (the newline is not a hex pair). -/
theorem ReadPacketBody_henc_longlen {s : List Nat} {newL hi lo t : Nat}
    {rest : List Nat}
    (hs : HexEnc s ([newL, hi, lo, t] ++ rest))
    (hge : rest.length ≤ newL) :
    ReadPacketBody (s ++ [10]) = none := by
  have hs1 : HexEnc s ([newL] ++ ([hi, lo] ++ ([t] ++ rest))) := by simpa using hs
  obtain ⟨sL, s1, rfl, hL, h1⟩ := henc_split hs1
  obtain ⟨sA, s2, rfl, hA, h2⟩ := henc_split h1
  obtain ⟨sT, sR, rfl, hT, hR⟩ := henc_split h2
  rcases eq_or_lt_of_le hge with heq | hlt
  · have hPB := ReadHexBytes_henc hR [10]
    rw [heq] at hPB
    simp only [List.append_assoc, ReadPacketBody, ReadHexByte_henc hL,
      ReadHexWord_henc hA, ReadHexByte_henc hT, hPB]
    simp [ReadHexByte]
  · have hPB := ReadHexBytes_henc_short hR _ hlt
    simp only [List.append_assoc, ReadPacketBody, ReadHexByte_henc hL,
      ReadHexWord_henc hA, ReadHexByte_henc hT, hPB]

/-- A stream starting with the `:` introducer decodes via the record body. -/
theorem ReadPacket_colon (s : List Nat) : ReadPacket (58 :: s) = ReadPacketBody s := by
  simp [ReadPacket]

/-! ## C1: encode/decode round trip for one record -/

theorem map_mod_eq_self {l : List Nat} (h : ∀ b ∈ l, b < 256) :
    l.map (· % 256) = l := by
  induction l with
  | nil => rfl
  | cons x l ih =>
    have hx : x < 256 := h x (by simp)
    simp [Nat.mod_eq_of_lt hx, ih fun b hb => h b (by simp [hb])]

theorem bodyBytes_valid {p : Packet} (hL : p.Data.length < 256)
    (hA : p.Address < 65536) (hT : p.Ty < 256) (hD : ∀ b ∈ p.Data, b < 256) :
    bodyBytes p = [p.Data.length, p.Address / 256, p.Address % 256, p.Ty] ++ p.Data := by
  have hdiv : p.Address / 256 < 256 := by omega
  have hmd : p.Address % 256 < 256 := by omega
  unfold bodyBytes
  rw [Nat.mod_eq_of_lt hL, Nat.mod_eq_of_lt hdiv, Nat.mod_eq_of_lt hT,
    map_mod_eq_self hD]

/-- **C1**: for every valid record (payload length, address, and type fit
their wire fields, payload entries are bytes), decoding the text produced by
`WritePacket` yields the record back with nothing left over — in particular
the emitted checksum passes validation — and the emitted checksum byte is the
two's complement of the 8-bit sum of length, address high byte, address low
byte, type, and payload. -/
theorem readPacket_writePacket_roundtrip (p : Packet)
    (hL : p.Data.length < 256) (hA : p.Address < 65536) (hT : p.Ty < 256)
    (hD : ∀ b ∈ p.Data, b < 256) :
    ReadPacket (WritePacket p) = some (p, []) ∧
    packetChecksum p =
      (256 - (p.Data.length + p.Address / 256 + p.Address % 256 + p.Ty
        + p.Data.sum) % 256) % 256 := by
  have hbody := bodyBytes_valid hL hA hT hD
  constructor
  · have hcklt : packetChecksum p < 256 := by unfold packetChecksum; omega
    have hbytes : ∀ b ∈ bodyBytes p ++ [packetChecksum p], b < 256 := by
      intro b hb
      rcases List.mem_append.1 hb with h | h
      · rw [hbody] at h
        rcases List.mem_append.1 h with h' | h'
        · fin_cases h' <;> omega
        · exact hD b h'
      · have hb' : b = packetChecksum p := by simpa using h
        omega
    have henc' := henc_flatMap hbytes
    rw [hbody, List.append_assoc ([p.Data.length, p.Address / 256,
      p.Address % 256, p.Ty]) p.Data [packetChecksum p]] at henc'
    have hck : packetChecksum p = (256 - sum8 ([p.Data.length, p.Address / 256,
        p.Address % 256, p.Ty] ++ p.Data)) % 256 := by
      unfold packetChecksum; rw [hbody]
    have hmain := ReadPacketBody_henc_ok henc' rfl hck
    have haddr : 256 * (p.Address / 256) + p.Address % 256 = p.Address :=
      Nat.div_add_mod p.Address 256
    rw [WritePacket]
    simp only [List.cons_append]
    rw [ReadPacket_colon, hbody, List.append_assoc
      ([p.Data.length, p.Address / 256, p.Address % 256, p.Ty]) p.Data
      [packetChecksum p], hmain, haddr]
  · unfold packetChecksum
    rw [hbody, sum8_eq_sum_mod]
    have hsum : ([p.Data.length, p.Address / 256, p.Address % 256, p.Ty]
        ++ p.Data).sum = p.Data.length + p.Address / 256 + p.Address % 256
        + p.Ty + p.Data.sum := by
      simp only [List.sum_append, List.sum_cons, List.sum_nil]
      ring
    rw [hsum]

/-- Witness for C1 at the spec's example record `:01001000AA45`. -/
theorem readPacket_writePacket_roundtrip_witness :
    ReadPacket (WritePacket { Ty := 0, Address := 0x10, Data := [0xAA] }) =
      some ({ Ty := 0, Address := 0x10, Data := [0xAA] }, []) :=
  (readPacket_writePacket_roundtrip _ (by decide) (by decide) (by decide)
    (by decide)).1

/-! ## C9: single-bit corruption of an encoded record -/

/-- Flip bit `b` of the character at position `i`. -/
def flipBitAt (s : List Nat) (i b : Nat) : List Nat :=
  s.set i ((s.getD i 0) ^^^ 2 ^ b)

theorem flatMap_hexByte_length (l : List Nat) :
    (l.flatMap hexByte).length = 2 * l.length := by
  induction l with
  | nil => rfl
  | cons x l ih =>
    simp only [List.flatMap_cons, List.length_append, List.length_cons, ih, hexByte]
    simp; omega

/-- Setting character `2|W| + k` of the hex encoding of `W ++ x :: Z` lands
inside the pair encoding `x`. -/
theorem flatMap_set (W Z : List Nat) (x k c' : Nat) (hk : k < 2) :
    ((W ++ x :: Z).flatMap hexByte).set (2 * W.length + k) c'
      = W.flatMap hexByte ++ (((hexByte x).set k c') ++ Z.flatMap hexByte) := by
  have hlen := flatMap_hexByte_length W
  rw [List.flatMap_append, List.flatMap_cons, List.set_append, if_neg (by omega)]
  have hidx : 2 * W.length + k - (W.flatMap hexByte).length = k := by omega
  rw [hidx, List.set_append, if_pos (by simpa [hexByte] using hk)]

/-- A corrupted pair whose new character is not a hex digit fails to read. -/
theorem hexByte_set_bad {k c' : Nat} (x : Nat) (hk : k < 2)
    (hc : hexDigit c' = none) (r : List Nat) :
    ReadHexByte (((hexByte x).set k c') ++ r) = none := by
  interval_cases k
  · simp [hexByte, ReadHexByte, hc]
  · rcases h' : hexDigit (hlut (x / 16)) with _ | v <;>
      simp [hexByte, ReadHexByte, hc, h']

/-- A corrupted pair whose new first character is the hex digit `v` encodes
the byte `16 * v + x % 16`. -/
theorem hexByte_set0_henc {x c' v : Nat} (hx : x < 256)
    (hc : hexDigit c' = some v) :
    HexEnc ((hexByte x).set 0 c') [16 * v + x % 16] := by
  have h2 : hexDigit (hlut (x % 16)) = some (x % 16) := hexDigit_hlut _ (by omega)
  simpa [hexByte] using HexEnc.cons hc h2 HexEnc.nil

/-- A corrupted pair whose new second character is the hex digit `v` encodes
the byte `16 * (x / 16) + v`. -/
theorem hexByte_set1_henc {x c' v : Nat} (hx : x < 256)
    (hc : hexDigit c' = some v) :
    HexEnc ((hexByte x).set 1 c') [16 * (x / 16) + v] := by
  have h1 : hexDigit (hlut (x / 16)) = some (x / 16) := hexDigit_hlut _ (by omega)
  simpa [hexByte] using HexEnc.cons h1 hc HexEnc.nil

/-- An embedded unreadable pair inside the payload loop fails the loop. -/
theorem ReadHexBytes_henc_bad {s bs : List Nat} (h : HexEnc s bs) {r : List Nat}
    (hr : ReadHexByte r = none) :
    ∀ n, bs.length < n → ReadHexBytes n (s ++ r) = none := by
  induction h with
  | nil =>
    intro n hn
    match n, hn with
    | n + 1, _ => simp [ReadHexBytes, hr]
  | cons e1 e2 ht ih =>
    intro n hn
    match n, hn with
    | Nat.succ m, hn =>
      have hih := ih m (by simp only [List.length_cons] at hn; omega)
      simp only [List.cons_append, ReadHexBytes, ReadHexByte, e1, e2, hih]

/-- Changing one summed byte changes the recorded-checksum comparison. -/
theorem checksum_mismatch {body newbody : List Nat} {x newx ck : Nat}
    (hrel : newbody.sum + x = body.sum + newx) (hx : x < 256) (hnx : newx < 256)
    (hne : newx ≠ x) (hck : ck = (256 - sum8 body) % 256) :
    (256 - sum8 newbody) % 256 ≠ ck := by
  rw [sum8_eq_sum_mod] at hck ⊢
  omega

/-- The byte re-decoded from a pair with one replaced character. -/
def newByte (x k v : Nat) : Nat :=
  if k = 0 then 16 * v + x % 16 else 16 * (x / 16) + v

theorem hexByte_set_henc {x k c' v : Nat} (hx : x < 256) (hk : k < 2)
    (hc : hexDigit c' = some v) :
    HexEnc ((hexByte x).set k c') [newByte x k v] := by
  interval_cases k
  · simpa [newByte] using hexByte_set0_henc hx hc
  · simpa [newByte] using hexByte_set1_henc hx hc

theorem newByte_lt {x v : Nat} (k : Nat) (hx : x < 256) (hv : v < 16) :
    newByte x k v < 256 := by
  unfold newByte; split <;> omega

theorem flatMap_set' (W Z : List Nat) (x j k c' : Nat) (hW : W.length = j)
    (hk : k < 2) :
    ((W ++ x :: Z).flatMap hexByte).set (2 * j + k) c'
      = W.flatMap hexByte ++ (((hexByte x).set k c') ++ Z.flatMap hexByte) := by
  subst hW; exact flatMap_set W Z x k c' hk

theorem list_split_getD {l : List Nat} {m : Nat} (h : m < l.length) :
    l = l.take m ++ l.getD m 0 :: l.drop (m + 1) := by
  conv_lhs => rw [← List.take_append_drop m l]
  rw [List.drop_eq_getElem_cons h, List.getD_eq_getElem l 0 h]

theorem ReadHexBytes_set_bad {s bs : List Nat} (h : HexEnc s bs) {k c' : Nat}
    (x : Nat) (hk : k < 2) (hc : hexDigit c' = none) (r : List Nat) :
    ∀ n, bs.length < n →
      ReadHexBytes n (s ++ (((hexByte x).set k c') ++ r)) = none :=
  fun n hn => ReadHexBytes_henc_bad h (hexByte_set_bad x hk hc r) n hn

/-- Master case analysis for C9: decoding a freshly encoded record whose
character `2j + k` of the hex region (length, address, type, or payload
pair) has been replaced by an arbitrary character either fails or yields
exactly the original record. -/
theorem ReadPacketBody_flip {L hi lo t ck : Nat} {data : List Nat}
    (hLb : L < 256) (hhi : hi < 256) (hlo : lo < 256) (ht : t < 256)
    (hdata : ∀ b ∈ data, b < 256) (hlen : data.length = L)
    (hck : ck = (256 - sum8 ([L, hi, lo, t] ++ data)) % 256)
    (j k c' : Nat) (hj : j < 4 + L) (hk : k < 2) :
    ReadPacketBody (((([L, hi, lo, t] ++ data ++ [ck]).flatMap hexByte).set
        (2 * j + k) c') ++ [10]) = none ∨
    ReadPacketBody (((([L, hi, lo, t] ++ data ++ [ck]).flatMap hexByte).set
        (2 * j + k) c') ++ [10]) = some (⟨t, 256 * hi + lo, data⟩, []) := by
  have hckb : ck < 256 := by rw [hck]; omega
  by_cases hj0 : j = 0
  · subst hj0
    have hbs : [L, hi, lo, t] ++ data ++ [ck]
        = ([] : List Nat) ++ L :: (hi :: lo :: t :: (data ++ [ck])) := by simp
    rw [hbs, flatMap_set' ([] : List Nat) (hi :: lo :: t :: (data ++ [ck]))
      L 0 k c' rfl hk]
    rcases hce : hexDigit c' with _ | v
    · left
      simp only [List.flatMap_nil, List.nil_append, List.append_assoc,
        ReadPacketBody, hexByte_set_bad L hk hce]
    · have hv := hexDigit_lt hce
      have hpair : HexEnc ((hexByte L).set k c') [newByte L k v] :=
        hexByte_set_henc hLb hk hce
      have hZb : ∀ b ∈ hi :: lo :: t :: (data ++ [ck]), b < 256 := by
        intro b hb
        simp at hb
        rcases hb with h | h | h | h | h
        · omega
        · omega
        · omega
        · exact hdata b h
        · omega
      have hZenc := henc_flatMap hZb
      by_cases heq : newByte L k v = L
      · right
        have hsEnc : HexEnc (([] : List Nat).flatMap hexByte
            ++ (((hexByte L).set k c')
              ++ (hi :: lo :: t :: (data ++ [ck])).flatMap hexByte))
            ([L, hi, lo, t] ++ data ++ [ck]) := by
          simpa [heq] using
            henc_append (henc_flatMap (fun b hb => absurd hb (List.not_mem_nil b)))
              (henc_append hpair hZenc)
        exact ReadPacketBody_henc_ok hsEnc hlen hck
      · left
        have hsEnc : HexEnc (([] : List Nat).flatMap hexByte
            ++ (((hexByte L).set k c')
              ++ (hi :: lo :: t :: (data ++ [ck])).flatMap hexByte))
            ([newByte L k v, hi, lo, t] ++ (data ++ [ck])) := by
          simpa using
            henc_append (henc_flatMap (fun b hb => absurd hb (List.not_mem_nil b)))
              (henc_append hpair hZenc)
        rcases Nat.lt_or_ge (newByte L k v) L with hcase | hcase
        · have hlt : newByte L k v + 2 ≤ (data ++ [ck]).length := by
            simp only [List.length_append, List.length_cons, List.length_nil,
              hlen]
            omega
          exact ReadPacketBody_henc_shortlen hsEnc hlt
        · have hge : (data ++ [ck]).length ≤ newByte L k v := by
            simp only [List.length_append, List.length_cons, List.length_nil,
              hlen]
            omega
          exact ReadPacketBody_henc_longlen hsEnc hge
  · by_cases hj1 : j = 1
    · subst hj1
      have hbs : [L, hi, lo, t] ++ data ++ [ck]
          = [L] ++ hi :: (lo :: t :: (data ++ [ck])) := by simp
      rw [hbs, flatMap_set' [L] (lo :: t :: (data ++ [ck])) hi 1 k c' rfl hk]
      rcases hce : hexDigit c' with _ | v
      · left
        simp only [List.flatMap_cons, List.flatMap_nil, List.append_nil,
          List.append_assoc, ReadPacketBody, ReadHexWord,
          ReadHexByte_henc (henc_hexByte hLb), hexByte_set_bad hi hk hce]
      · have hv := hexDigit_lt hce
        have hpair : HexEnc ((hexByte hi).set k c') [newByte hi k v] :=
          hexByte_set_henc hhi hk hce
        have hZb : ∀ b ∈ lo :: t :: (data ++ [ck]), b < 256 := by
          intro b hb
          simp at hb
          rcases hb with h | h | h | h
          · omega
          · omega
          · exact hdata b h
          · omega
        have hZenc := henc_flatMap hZb
        have hWb : ∀ b ∈ ([L] : List Nat), b < 256 := by
          intro b hb; fin_cases hb <;> omega
        by_cases heq : newByte hi k v = hi
        · right
          have hsEnc : HexEnc (([L] : List Nat).flatMap hexByte
              ++ (((hexByte hi).set k c')
                ++ (lo :: t :: (data ++ [ck])).flatMap hexByte))
              ([L, hi, lo, t] ++ data ++ [ck]) := by
            simpa [heq] using
              henc_append (henc_flatMap hWb) (henc_append hpair hZenc)
          exact ReadPacketBody_henc_ok hsEnc hlen hck
        · left
          have hsEnc : HexEnc (([L] : List Nat).flatMap hexByte
              ++ (((hexByte hi).set k c')
                ++ (lo :: t :: (data ++ [ck])).flatMap hexByte))
              ([L, newByte hi k v, lo, t] ++ data ++ [ck]) := by
            simpa using
              henc_append (henc_flatMap hWb) (henc_append hpair hZenc)
          have hrel : ([L, newByte hi k v, lo, t] ++ data).sum + hi
              = ([L, hi, lo, t] ++ data).sum + newByte hi k v := by
            simp only [List.sum_append, List.sum_cons, List.sum_nil]
            ring
          exact ReadPacketBody_henc_badsum hsEnc hlen
            (checksum_mismatch hrel hhi (newByte_lt k hhi hv) heq hck)
    · by_cases hj2 : j = 2
      · subst hj2
        have hbs : [L, hi, lo, t] ++ data ++ [ck]
            = [L, hi] ++ lo :: (t :: (data ++ [ck])) := by simp
        rw [hbs, flatMap_set' [L, hi] (t :: (data ++ [ck])) lo 2 k c' rfl hk]
        rcases hce : hexDigit c' with _ | v
        · left
          simp only [List.flatMap_cons, List.flatMap_nil, List.append_nil,
            List.append_assoc, ReadPacketBody, ReadHexWord,
            ReadHexByte_henc (henc_hexByte hLb),
            ReadHexByte_henc (henc_hexByte hhi), hexByte_set_bad lo hk hce]
        · have hv := hexDigit_lt hce
          have hpair : HexEnc ((hexByte lo).set k c') [newByte lo k v] :=
            hexByte_set_henc hlo hk hce
          have hZb : ∀ b ∈ t :: (data ++ [ck]), b < 256 := by
            intro b hb
            simp at hb
            rcases hb with h | h | h
            · omega
            · exact hdata b h
            · omega
          have hZenc := henc_flatMap hZb
          have hWb : ∀ b ∈ ([L, hi] : List Nat), b < 256 := by
            intro b hb; fin_cases hb <;> omega
          by_cases heq : newByte lo k v = lo
          · right
            have hsEnc : HexEnc (([L, hi] : List Nat).flatMap hexByte
                ++ (((hexByte lo).set k c')
                  ++ (t :: (data ++ [ck])).flatMap hexByte))
                ([L, hi, lo, t] ++ data ++ [ck]) := by
              simpa [heq] using
                henc_append (henc_flatMap hWb) (henc_append hpair hZenc)
            exact ReadPacketBody_henc_ok hsEnc hlen hck
          · left
            have hsEnc : HexEnc (([L, hi] : List Nat).flatMap hexByte
                ++ (((hexByte lo).set k c')
                  ++ (t :: (data ++ [ck])).flatMap hexByte))
                ([L, hi, newByte lo k v, t] ++ data ++ [ck]) := by
              simpa using
                henc_append (henc_flatMap hWb) (henc_append hpair hZenc)
            have hrel : ([L, hi, newByte lo k v, t] ++ data).sum + lo
                = ([L, hi, lo, t] ++ data).sum + newByte lo k v := by
              simp only [List.sum_append, List.sum_cons, List.sum_nil]
              ring
            exact ReadPacketBody_henc_badsum hsEnc hlen
              (checksum_mismatch hrel hlo (newByte_lt k hlo hv) heq hck)
      · by_cases hj3 : j = 3
        · subst hj3
          have hbs : [L, hi, lo, t] ++ data ++ [ck]
              = [L, hi, lo] ++ t :: (data ++ [ck]) := by simp
          rw [hbs, flatMap_set' [L, hi, lo] (data ++ [ck]) t 3 k c' rfl hk]
          rcases hce : hexDigit c' with _ | v
          · left
            simp only [List.flatMap_cons, List.flatMap_nil, List.append_nil,
              List.append_assoc, ReadPacketBody, ReadHexWord,
              ReadHexByte_henc (henc_hexByte hLb),
              ReadHexByte_henc (henc_hexByte hhi),
              ReadHexByte_henc (henc_hexByte hlo), hexByte_set_bad t hk hce]
          · have hv := hexDigit_lt hce
            have hpair : HexEnc ((hexByte t).set k c') [newByte t k v] :=
              hexByte_set_henc ht hk hce
            have hZb : ∀ b ∈ data ++ [ck], b < 256 := by
              intro b hb
              simp at hb
              rcases hb with h | h
              · exact hdata b h
              · omega
            have hZenc := henc_flatMap hZb
            have hWb : ∀ b ∈ ([L, hi, lo] : List Nat), b < 256 := by
              intro b hb; fin_cases hb <;> omega
            by_cases heq : newByte t k v = t
            · right
              have hsEnc : HexEnc (([L, hi, lo] : List Nat).flatMap hexByte
                  ++ (((hexByte t).set k c') ++ (data ++ [ck]).flatMap hexByte))
                  ([L, hi, lo, t] ++ data ++ [ck]) := by
                simpa [heq] using
                  henc_append (henc_flatMap hWb) (henc_append hpair hZenc)
              exact ReadPacketBody_henc_ok hsEnc hlen hck
            · left
              have hsEnc : HexEnc (([L, hi, lo] : List Nat).flatMap hexByte
                  ++ (((hexByte t).set k c') ++ (data ++ [ck]).flatMap hexByte))
                  ([L, hi, lo, newByte t k v] ++ data ++ [ck]) := by
                simpa using
                  henc_append (henc_flatMap hWb) (henc_append hpair hZenc)
              have hrel : ([L, hi, lo, newByte t k v] ++ data).sum + t
                  = ([L, hi, lo, t] ++ data).sum + newByte t k v := by
                simp only [List.sum_append, List.sum_cons, List.sum_nil]
                ring
              exact ReadPacketBody_henc_badsum hsEnc hlen
                (checksum_mismatch hrel ht (newByte_lt k ht hv) heq hck)
        · -- payload position: j = m + 4 with m < L
          obtain ⟨m, rfl⟩ : ∃ m, j = m + 4 := ⟨j - 4, by omega⟩
          have hm : m < data.length := by omega
          have hmL : m < L := by omega
          have htk : (data.take m).length = m :=
            List.length_take_of_le (by omega)
          have hbs : [L, hi, lo, t] ++ data ++ [ck]
              = ([L, hi, lo, t] ++ data.take m)
                ++ data.getD m 0 :: (data.drop (m + 1) ++ [ck]) := by
            conv_lhs => rw [list_split_getD hm]
            simp
          have hW : ([L, hi, lo, t] ++ data.take m).length = m + 4 := by
            simp only [List.length_append, List.length_cons, List.length_nil,
              htk]
            omega
          rw [hbs, flatMap_set' ([L, hi, lo, t] ++ data.take m)
            (data.drop (m + 1) ++ [ck]) (data.getD m 0) (m + 4) k c' hW hk]
          have hx0 : data.getD m 0 < 256 := by
            refine hdata _ ?_
            rw [List.getD_eq_getElem data 0 hm]
            exact List.getElem_mem hm
          have hD1b : ∀ b ∈ data.take m, b < 256 := fun b hb =>
            hdata b (List.mem_of_mem_take hb)
          rcases hce : hexDigit c' with _ | v
          · left
            have hD1enc := henc_flatMap hD1b
            have hpay : ∀ r, ReadHexBytes L ((data.take m).flatMap hexByte
                ++ (((hexByte (data.getD m 0)).set k c') ++ r)) = none :=
              fun r => ReadHexBytes_set_bad hD1enc (data.getD m 0) hk hce r L
                (by omega)
            simp only [List.flatMap_append, List.flatMap_cons,
              List.flatMap_nil, List.append_nil, List.append_assoc,
              ReadPacketBody, ReadHexWord,
              ReadHexByte_henc (henc_hexByte hLb),
              ReadHexByte_henc (henc_hexByte hhi),
              ReadHexByte_henc (henc_hexByte hlo),
              ReadHexByte_henc (henc_hexByte ht), hpay]
          · have hv := hexDigit_lt hce
            have hpair : HexEnc ((hexByte (data.getD m 0)).set k c')
                [newByte (data.getD m 0) k v] :=
              hexByte_set_henc hx0 hk hce
            have hZb : ∀ b ∈ data.drop (m + 1) ++ [ck], b < 256 := by
              intro b hb
              simp at hb
              rcases hb with h | h
              · exact hdata b (List.mem_of_mem_drop h)
              · omega
            have hZenc := henc_flatMap hZb
            have hWb : ∀ b ∈ [L, hi, lo, t] ++ data.take m, b < 256 := by
              intro b hb
              rcases List.mem_append.1 hb with h | h
              · fin_cases h <;> omega
              · exact hD1b b h
            by_cases heq : newByte (data.getD m 0) k v = data.getD m 0
            · right
              have hsEnc : HexEnc (([L, hi, lo, t] ++ data.take m).flatMap
                  hexByte ++ (((hexByte (data.getD m 0)).set k c')
                    ++ (data.drop (m + 1) ++ [ck]).flatMap hexByte))
                  ([L, hi, lo, t] ++ data ++ [ck]) := by
                have h0 := henc_append (henc_flatMap hWb)
                  (henc_append hpair hZenc)
                rw [heq] at h0
                have hle : [L, hi, lo, t] ++ data.take m
                    ++ ([data.getD m 0] ++ (data.drop (m + 1) ++ [ck]))
                    = [L, hi, lo, t] ++ data ++ [ck] := by
                  conv_rhs => rw [list_split_getD hm]
                  simp
                rwa [hle] at h0
              exact ReadPacketBody_henc_ok hsEnc hlen hck
            · left
              have hsEnc : HexEnc (([L, hi, lo, t] ++ data.take m).flatMap
                  hexByte ++ (((hexByte (data.getD m 0)).set k c')
                    ++ (data.drop (m + 1) ++ [ck]).flatMap hexByte))
                  ([L, hi, lo, t]
                    ++ (data.take m ++ newByte (data.getD m 0) k v
                      :: data.drop (m + 1)) ++ [ck]) := by
                simpa using
                  henc_append (henc_flatMap hWb) (henc_append hpair hZenc)
              have hlen' : (data.take m ++ newByte (data.getD m 0) k v
                  :: data.drop (m + 1)).length = L := by
                simp only [List.length_append, List.length_cons, htk,
                  List.length_drop]
                omega
              have hdsum : data.sum = (data.take m).sum
                  + (data.getD m 0 + (data.drop (m + 1)).sum) := by
                conv_lhs => rw [list_split_getD hm]
                simp [List.sum_append]
              have hrel : ([L, hi, lo, t] ++ (data.take m
                  ++ newByte (data.getD m 0) k v :: data.drop (m + 1))).sum
                  + data.getD m 0
                  = ([L, hi, lo, t] ++ data).sum
                    + newByte (data.getD m 0) k v := by
                simp only [List.sum_append, List.sum_cons, List.sum_nil, hdsum]
                ring
              exact ReadPacketBody_henc_badsum hsEnc hlen'
                (checksum_mismatch hrel hx0
                  (newByte_lt k hx0 hv) heq hck)

theorem set_text {X r : List Nat} {i : Nat} (c' : Nat) (h1 : 1 ≤ i)
    (h2 : i - 1 < X.length) :
    ((58 :: X) ++ r).set i c' = (58 :: X.set (i - 1) c') ++ r := by
  rw [List.set_append, if_pos (by simp; omega)]
  congr 1
  match i, h1 with
  | Nat.succ n, _ => simp [List.set]

/-- C9 counterexample: flipping bit 5 of the payload character `A` of the
encoded record `:010000000AF5` turns it into the lowercase hex digit `a`.
The decoder accepts lowercase digits, so decoding succeeds (returning the
original record) instead of failing as the claim states. -/
theorem readPacket_bitflip_counterexample :
    flipBitAt (WritePacket { Ty := 0, Address := 0, Data := [10] }) 10 5
        ≠ WritePacket { Ty := 0, Address := 0, Data := [10] } ∧
    ReadPacket (flipBitAt (WritePacket { Ty := 0, Address := 0, Data := [10] })
        10 5)
      = some ({ Ty := 0, Address := 0, Data := [10] }, []) := by decide

/-- **C9 (amended)**: for every valid record, flipping one bit of a payload
or header character of its encoded text either makes the decoder return an
error, or the decode succeeds with exactly the original record and an empty
remainder (this happens when the flip toggles the letter case of a hex
digit).  The decoder never successfully returns a record that differs from
the original. -/
theorem readPacket_bitflip_no_silent_corruption (p : Packet)
    (hL : p.Data.length < 256) (hA : p.Address < 65536) (hT : p.Ty < 256)
    (hD : ∀ b ∈ p.Data, b < 256)
    (i b : Nat) (hi1 : 1 ≤ i) (hi2 : i < 1 + 2 * (4 + p.Data.length))
    (hb : b < 8) (q : Packet) (rest : List Nat)
    (hdec : ReadPacket (flipBitAt (WritePacket p) i b) = some (q, rest)) :
    q = p ∧ rest = [] := by
  have hbody := bodyBytes_valid hL hA hT hD
  have hXlen : ((bodyBytes p ++ [packetChecksum p]).flatMap hexByte).length
      = 2 * (5 + p.Data.length) := by
    rw [flatMap_hexByte_length]
    simp [bodyBytes]
    omega
  have hflip : flipBitAt (WritePacket p) i b
      = (58 :: ((bodyBytes p ++ [packetChecksum p]).flatMap hexByte).set (i - 1)
          ((WritePacket p).getD i 0 ^^^ 2 ^ b)) ++ [10] := by
    unfold flipBitAt
    conv_lhs => rw [WritePacket]
    exact set_text _ hi1 (by omega)
  rw [hflip, List.cons_append, ReadPacket_colon] at hdec
  have hjk : 2 * ((i - 1) / 2) + (i - 1) % 2 = i - 1 := by omega
  rw [← hjk, hbody] at hdec
  have hck' : packetChecksum p = (256 - sum8 ([p.Data.length, p.Address / 256,
      p.Address % 256, p.Ty] ++ p.Data)) % 256 := by
    unfold packetChecksum; rw [hbody]
  have hmaster := ReadPacketBody_flip hL (by omega) (by omega) hT hD rfl hck'
    ((i - 1) / 2) ((i - 1) % 2) ((WritePacket p).getD i 0 ^^^ 2 ^ b)
    (by omega) (by omega)
  rcases hmaster with hnone | hok
  · rw [hnone] at hdec
    cases hdec
  · rw [hok] at hdec
    have haddr : 256 * (p.Address / 256) + p.Address % 256 = p.Address :=
      Nat.div_add_mod _ 256
    rw [haddr] at hdec
    simp only [Option.some.injEq, Prod.mk.injEq] at hdec
    exact ⟨hdec.1.symm.trans rfl, hdec.2.symm⟩

/-- Witness for the amended C9 at the record `:010000000AF5` with bit 5 of
character 10 flipped (the decode that succeeds). -/
theorem readPacket_bitflip_no_silent_corruption_witness :
    ({ Ty := 0, Address := 0, Data := [10] } : Packet)
      = { Ty := 0, Address := 0, Data := [10] } ∧ ([10] : List Nat) ≠ []
      ∧ ([] : List Nat) = [] := by
  refine ⟨?_, by decide, ?_⟩
  · exact (readPacket_bitflip_no_silent_corruption
      { Ty := 0, Address := 0, Data := [10] } (by decide) (by decide)
      (by decide) (by decide) 10 5 (by decide) (by decide) (by decide)
      { Ty := 0, Address := 0, Data := [10] } [] (by decide)).1
  · exact (readPacket_bitflip_no_silent_corruption
      { Ty := 0, Address := 0, Data := [10] } (by decide) (by decide)
      (by decide) (by decide) 10 5 (by decide) (by decide) (by decide)
      { Ty := 0, Address := 0, Data := [10] } [] (by decide)).2

/-! ## n76 configuration codec (from N76E003Config) -/

/-- `n76.BootSelect` (CONFIG0.CBS). -/
inductive BootSelect
  | BootFromLDROM
  | BootFromAPROM
deriving DecidableEq, Repr

/-- `n76.BODVoltage` (CONFIG2.COV). -/
inductive BODVoltage
  | BODVoltage4v4
  | BODVoltage3v7
  | BODVoltage2v7
  | BODVoltage2v2
deriving DecidableEq, Repr

/-- `n76.WDTMode` (CONFIG3.WDTEN). -/
inductive WDTMode
  | WDTDisabled
  | WDTEnabled
  | WDTEnabledAlways
deriving DecidableEq, Repr

/-- `n76.N76E003LDROMSize` (CONFIG1.LDSIZE). -/
inductive N76E003LDROMSize
  | N76E003LDROM0KB
  | N76E003LDROM1KB
  | N76E003LDROM2KB
  | N76E003LDROM3KB
  | N76E003LDROM4KB
deriving DecidableEq, Repr

/-- `n76.N76E003Config`: the structured view of the configuration bytes. -/
structure N76E003Config where
  BootSel : BootSelect
  PWMEnabledDuringOCD : Bool
  OCDEnabled : Bool
  ResetPinDisabled : Bool
  Locked : Bool
  LDROMSize : N76E003LDROMSize
  BODDisabled : Bool
  BODVolt : BODVoltage
  IAPEnabledInBrownout : Bool
  BODResetDisabled : Bool
  WDT : WDTMode
deriving DecidableEq, Repr

/-- `N76E003Config.UnmarshalBinary`: bit tests on the first four bytes; a
cleared bit means the feature is enabled (one-time-programmable fuse
polarity); fewer than 4 bytes is a too-short error. -/
def UnmarshalBinary (buf : List Nat) : Option N76E003Config :=
  if buf.length < 4 then none
  else
    let b0 := buf.getD 0 0
    let b1 := buf.getD 1 0
    let b2 := buf.getD 2 0
    let b3 := buf.getD 3 0
    some {
      BootSel := if b0 &&& 0x80 = 0 then .BootFromLDROM else .BootFromAPROM
      PWMEnabledDuringOCD := b0 &&& 0x20 == 0
      OCDEnabled := b0 &&& 0x10 == 0
      ResetPinDisabled := b0 &&& 0x04 == 0
      Locked := b0 &&& 0x02 == 0
      LDROMSize :=
        match b1 &&& 0x7 with
        | 7 => .N76E003LDROM0KB
        | 6 => .N76E003LDROM1KB
        | 5 => .N76E003LDROM2KB
        | 4 => .N76E003LDROM3KB
        | _ => .N76E003LDROM4KB
      BODDisabled := b2 &&& 0x80 == 0
      BODVolt :=
        match (b2 >>> 4) &&& 0x3 with
        | 0 => .BODVoltage4v4
        | 1 => .BODVoltage3v7
        | 2 => .BODVoltage2v7
        | _ => .BODVoltage2v2
      IAPEnabledInBrownout := b2 &&& 0x08 == 0
      BODResetDisabled := b2 &&& 0x04 == 0
      WDT :=
        match b3 >>> 4 with
        | 0xF => .WDTDisabled
        | 0x5 => .WDTEnabled
        | _ => .WDTEnabledAlways }

/-- CONFIG0 as built by `MarshalBinary`: pre-filled `0xFF`, bits cleared
for enabled fields. -/
def marshalByte0 (cfg : N76E003Config) : Nat :=
  let b0 := 255
  let b0 := if cfg.BootSel = .BootFromLDROM then b0 &&& 0x7F else b0
  let b0 := if cfg.PWMEnabledDuringOCD then b0 &&& 0xDF else b0
  let b0 := if cfg.OCDEnabled then b0 &&& 0xEF else b0
  let b0 := if cfg.ResetPinDisabled then b0 &&& 0xFB else b0
  if cfg.Locked then b0 &&& 0xFD else b0

/-- CONFIG1 as built by `MarshalBinary`: the LDROM size selector table. -/
def marshalByte1 (cfg : N76E003Config) : Nat :=
  match cfg.LDROMSize with
  | .N76E003LDROM0KB => 0xFF
  | .N76E003LDROM1KB => 0xFE
  | .N76E003LDROM2KB => 0xFD
  | .N76E003LDROM3KB => 0xFC
  | .N76E003LDROM4KB => 0xFB

/-- CONFIG2 as built by `MarshalBinary`. -/
def marshalByte2 (cfg : N76E003Config) : Nat :=
  let b2 := 255
  let b2 := if cfg.BODDisabled then b2 &&& 0x7F else b2
  let b2 := match cfg.BODVolt with
    | .BODVoltage4v4 => b2 &&& 0xCF
    | .BODVoltage3v7 => b2 &&& 0xDF
    | .BODVoltage2v7 => b2 &&& 0xEF
    | .BODVoltage2v2 => b2 &&& 0xFF
  let b2 := if cfg.IAPEnabledInBrownout then b2 &&& 0xF7 else b2
  if cfg.BODResetDisabled then b2 &&& 0xFB else b2

/-- CONFIG3 as built by `MarshalBinary`: the WDT mode table. -/
def marshalByte3 (cfg : N76E003Config) : Nat :=
  match cfg.WDT with
  | .WDTDisabled => 0xFF
  | .WDTEnabled => 0x5F
  | .WDTEnabledAlways => 0x0F

/-- The 8-byte image built by `MarshalBinary` before its self-check. -/
def marshalBytes (cfg : N76E003Config) : List Nat :=
  [marshalByte0 cfg, marshalByte1 cfg, marshalByte2 cfg, marshalByte3 cfg,
    255, 255, 255, 255]

/-- The three outcomes of `MarshalBinary`: a byte buffer, a returned decode
error, or a process abort (Go `panic("Roundtrip error")`). -/
inductive MarshalResult
  | ok (buf : List Nat)
  | err
  | panics
deriving DecidableEq, Repr

/-- `N76E003Config.MarshalBinary` with its sense check: re-decode the fresh
bytes; a decode error is returned, and a round-trip mismatch aborts. -/
def MarshalBinary (cfg : N76E003Config) : MarshalResult :=
  let buf := marshalBytes cfg
  match UnmarshalBinary buf with
  | none => MarshalResult.err
  | some newCfg =>
    if newCfg = cfg then MarshalResult.ok buf else MarshalResult.panics

theorem UnmarshalBinary_eval (x0 x1 x2 x3 y4 y5 y6 y7 : Nat) :
    UnmarshalBinary [x0, x1, x2, x3, y4, y5, y6, y7] = some {
      BootSel := if x0 &&& 0x80 = 0 then .BootFromLDROM else .BootFromAPROM
      PWMEnabledDuringOCD := x0 &&& 0x20 == 0
      OCDEnabled := x0 &&& 0x10 == 0
      ResetPinDisabled := x0 &&& 0x04 == 0
      Locked := x0 &&& 0x02 == 0
      LDROMSize :=
        match x1 &&& 0x7 with
        | 7 => .N76E003LDROM0KB
        | 6 => .N76E003LDROM1KB
        | 5 => .N76E003LDROM2KB
        | 4 => .N76E003LDROM3KB
        | _ => .N76E003LDROM4KB
      BODDisabled := x2 &&& 0x80 == 0
      BODVolt :=
        match (x2 >>> 4) &&& 0x3 with
        | 0 => .BODVoltage4v4
        | 1 => .BODVoltage3v7
        | 2 => .BODVoltage2v7
        | _ => .BODVoltage2v2
      IAPEnabledInBrownout := x2 &&& 0x08 == 0
      BODResetDisabled := x2 &&& 0x04 == 0
      WDT :=
        match x3 >>> 4 with
        | 0xF => .WDTDisabled
        | 0x5 => .WDTEnabled
        | _ => .WDTEnabledAlways } := rfl

theorem unmarshal_boot (bs : BootSelect) (pwm ocd rpd lk : Bool) :
    (if marshalByte0 ⟨bs, pwm, ocd, rpd, lk, .N76E003LDROM0KB, false,
        .BODVoltage4v4, false, false, .WDTDisabled⟩ &&& 0x80 = 0
      then BootSelect.BootFromLDROM else BootSelect.BootFromAPROM) = bs := by
  cases bs <;> cases pwm <;> cases ocd <;> cases rpd <;> cases lk <;> decide

theorem unmarshal_pwm (bs : BootSelect) (pwm ocd rpd lk : Bool) :
    (marshalByte0 ⟨bs, pwm, ocd, rpd, lk, .N76E003LDROM0KB, false,
      .BODVoltage4v4, false, false, .WDTDisabled⟩ &&& 0x20 == 0) = pwm := by
  cases bs <;> cases pwm <;> cases ocd <;> cases rpd <;> cases lk <;> decide

theorem unmarshal_ocd (bs : BootSelect) (pwm ocd rpd lk : Bool) :
    (marshalByte0 ⟨bs, pwm, ocd, rpd, lk, .N76E003LDROM0KB, false,
      .BODVoltage4v4, false, false, .WDTDisabled⟩ &&& 0x10 == 0) = ocd := by
  cases bs <;> cases pwm <;> cases ocd <;> cases rpd <;> cases lk <;> decide

theorem unmarshal_rpd (bs : BootSelect) (pwm ocd rpd lk : Bool) :
    (marshalByte0 ⟨bs, pwm, ocd, rpd, lk, .N76E003LDROM0KB, false,
      .BODVoltage4v4, false, false, .WDTDisabled⟩ &&& 0x04 == 0) = rpd := by
  cases bs <;> cases pwm <;> cases ocd <;> cases rpd <;> cases lk <;> decide

theorem unmarshal_locked (bs : BootSelect) (pwm ocd rpd lk : Bool) :
    (marshalByte0 ⟨bs, pwm, ocd, rpd, lk, .N76E003LDROM0KB, false,
      .BODVoltage4v4, false, false, .WDTDisabled⟩ &&& 0x02 == 0) = lk := by
  cases bs <;> cases pwm <;> cases ocd <;> cases rpd <;> cases lk <;> decide

theorem unmarshal_ldrom (ld : N76E003LDROMSize) :
    (match marshalByte1 ⟨.BootFromAPROM, false, false, false, false, ld,
        false, .BODVoltage4v4, false, false, .WDTDisabled⟩ &&& 0x7 with
      | 7 => N76E003LDROMSize.N76E003LDROM0KB
      | 6 => N76E003LDROMSize.N76E003LDROM1KB
      | 5 => N76E003LDROMSize.N76E003LDROM2KB
      | 4 => N76E003LDROMSize.N76E003LDROM3KB
      | _ => N76E003LDROMSize.N76E003LDROM4KB) = ld := by
  cases ld <;> decide

theorem unmarshal_bod (bod : Bool) (bodv : BODVoltage) (iap bodr : Bool) :
    (marshalByte2 ⟨.BootFromAPROM, false, false, false, false,
      .N76E003LDROM0KB, bod, bodv, iap, bodr, .WDTDisabled⟩ &&& 0x80 == 0)
      = bod := by
  cases bod <;> cases bodv <;> cases iap <;> cases bodr <;> decide

theorem unmarshal_bodv (bod : Bool) (bodv : BODVoltage) (iap bodr : Bool) :
    (match (marshalByte2 ⟨.BootFromAPROM, false, false, false, false,
        .N76E003LDROM0KB, bod, bodv, iap, bodr, .WDTDisabled⟩ >>> 4)
        &&& 0x3 with
      | 0 => BODVoltage.BODVoltage4v4
      | 1 => BODVoltage.BODVoltage3v7
      | 2 => BODVoltage.BODVoltage2v7
      | _ => BODVoltage.BODVoltage2v2) = bodv := by
  cases bod <;> cases bodv <;> cases iap <;> cases bodr <;> decide

theorem unmarshal_iap (bod : Bool) (bodv : BODVoltage) (iap bodr : Bool) :
    (marshalByte2 ⟨.BootFromAPROM, false, false, false, false,
      .N76E003LDROM0KB, bod, bodv, iap, bodr, .WDTDisabled⟩ &&& 0x08 == 0)
      = iap := by
  cases bod <;> cases bodv <;> cases iap <;> cases bodr <;> decide

theorem unmarshal_bodr (bod : Bool) (bodv : BODVoltage) (iap bodr : Bool) :
    (marshalByte2 ⟨.BootFromAPROM, false, false, false, false,
      .N76E003LDROM0KB, bod, bodv, iap, bodr, .WDTDisabled⟩ &&& 0x04 == 0)
      = bodr := by
  cases bod <;> cases bodv <;> cases iap <;> cases bodr <;> decide

theorem unmarshal_wdt (wdt : WDTMode) :
    (match marshalByte3 ⟨.BootFromAPROM, false, false, false, false,
        .N76E003LDROM0KB, false, .BODVoltage4v4, false, false, wdt⟩ >>> 4 with
      | 0xF => WDTMode.WDTDisabled
      | 0x5 => WDTMode.WDTEnabled
      | _ => WDTMode.WDTEnabledAlways) = wdt := by
  cases wdt <;> decide


/-- **C2**: every structured configuration round-trips: decoding the bytes
produced by `marshalBytes` yields the value back, hence the self-check in
`MarshalBinary` (which aborts, by its definition, exactly when the re-decode
differs from the input) never fires and the fresh buffer is returned. -/
theorem unmarshal_marshal_roundtrip (c : N76E003Config) :
    UnmarshalBinary (marshalBytes c) = some c ∧
    MarshalBinary c = MarshalResult.ok (marshalBytes c) := by
  have h1 : UnmarshalBinary (marshalBytes c) = some c := by
    show UnmarshalBinary [marshalByte0 c, marshalByte1 c, marshalByte2 c,
      marshalByte3 c, 255, 255, 255, 255] = some c
    rw [UnmarshalBinary_eval]
    obtain ⟨bs, pwm, ocd, rpd, lk, ld, bod, bodv, iap, bodr, wdt⟩ := c
    simp only [Option.some.injEq, N76E003Config.mk.injEq]
    exact ⟨unmarshal_boot bs pwm ocd rpd lk, unmarshal_pwm bs pwm ocd rpd lk,
      unmarshal_ocd bs pwm ocd rpd lk, unmarshal_rpd bs pwm ocd rpd lk,
      unmarshal_locked bs pwm ocd rpd lk, unmarshal_ldrom ld,
      unmarshal_bod bod bodv iap bodr, unmarshal_bodv bod bodv iap bodr,
      unmarshal_iap bod bodv iap bodr, unmarshal_bodr bod bodv iap bodr,
      unmarshal_wdt wdt⟩
  refine ⟨h1, ?_⟩
  unfold MarshalBinary
  simp [h1]

/-! ## protocol: V1 framer (from V1Frame / V1Framer) -/

/-- `V1Frame.SequenceNumber`: byte 0 of the frame. -/
def V1Frame.SequenceNumber (f : List Nat) : Nat := f.getD 0 0

/-- `V1Frame.BodyLength`: byte 1 of the frame. -/
def V1Frame.BodyLength (f : List Nat) : Nat := f.getD 1 0

/-- `V1Frame.Body`: the slice `f[2 : 2 + BodyLength]`. -/
def V1Frame.Body (f : List Nat) : List Nat :=
  (f.drop 2).take (V1Frame.BodyLength f)

/-- `V1Framer.Frame`: reject bodies over 62 bytes; otherwise a zero-filled
64-byte buffer with sequence number, body length and body placed. -/
def V1Framer.Frame (seqno : Nat) (body : List Nat) : Option (List Nat) :=
  if body.length > 62 then none
  else some (seqno :: body.length :: (body ++ List.replicate (62 - body.length) 0))

/-- `V1Framer.Unframe`: require exactly 64 bytes and a declared body length
of at most 62. -/
def V1Framer.Unframe (pkg : List Nat) : Option (List Nat) :=
  if pkg.length ≠ 64 then none
  else if pkg.getD 1 0 > 62 then none
  else some pkg

/-! ## protocol: device session (from Device.nextSequenceNumber / Receive) -/

/-- `Device.nextSequenceNumber`, hid variant: increment the `uint8` counter,
wrapping to 1 upon reaching 0x80; returns the new value. -/
def nextSequenceNumberHid (seqNo : Nat) : Nat :=
  let s := (seqNo + 1) % 256
  if s ≥ 0x80 then 1 else s

/-- `Device.nextSequenceNumber`, gousb variant: identical except that it
wraps to 0 instead of 1. -/
def nextSequenceNumberGousb (seqNo : Nat) : Nat :=
  let s := (seqNo + 1) % 256
  if s ≥ 0x80 then 0 else s

/-- `Device.Receive`, hid variant, modelled over the list of frames the
transport will deliver: read a frame (a short stream is a read error),
unframe it, and if its sequence number differs from the last sent one retry,
failing on the fifth total attempt. -/
def ReceiveHid (seqNo : Nat) : Nat → List (List Nat) → Option (List Nat)
  | _, [] => none
  | attempt, f :: rest =>
    if f.length ≠ 64 then none
    else
      match V1Framer.Unframe f with
      | none => none
      | some respf =>
        if V1Frame.SequenceNumber respf ≠ seqNo then
          if attempt + 1 = 5 then none
          else ReceiveHid seqNo (attempt + 1) rest
        else some (V1Frame.Body respf)

/-- `Device.Receive`, gousb variant: a single read; any sequence-number
mismatch is an immediate error, with no retry. -/
def ReceiveGousb (seqNo : Nat) (frames : List (List Nat)) : Option (List Nat) :=
  match frames with
  | [] => none
  | f :: _ =>
    if f.length ≠ 64 then none
    else
      match V1Framer.Unframe f with
      | none => none
      | some respf =>
        if V1Frame.SequenceNumber respf ≠ seqNo then none
        else some (V1Frame.Body respf)

set_option maxRecDepth 4000 in
/-- C3 counterexample: the gousb variant's 128th allocated sequence number,
starting from the initial state 0, is 0 — the claim says a fresh request
sequence number is always in 1..0x7F and 0 is never sent. -/
theorem nextSequenceNumberGousb_counterexample :
    nextSequenceNumberGousb^[128] 0 = 0 := by decide

/-- **C3 (amended)**: the hid variant's sequence allocation starts at 1,
wraps from 0x7F back to 1, and every allocated number lies in 1..0x7F; the
gousb variant instead wraps to 0 and allocates 0 on its 128th send. -/
theorem nextSequenceNumberHid_range :
    nextSequenceNumberHid 0 = 1 ∧ nextSequenceNumberHid 0x7F = 1 ∧
    ∀ n : Nat, 1 ≤ nextSequenceNumberHid^[n + 1] 0 ∧
      nextSequenceNumberHid^[n + 1] 0 ≤ 0x7F := by
  have step : ∀ s : Nat, s ≤ 0x7F →
      1 ≤ nextSequenceNumberHid s ∧ nextSequenceNumberHid s ≤ 0x7F := by
    intro s hs
    simp only [nextSequenceNumberHid]
    split <;> omega
  refine ⟨by decide, by decide, ?_⟩
  intro n
  induction n with
  | zero => decide
  | succ m ih =>
    rw [Function.iterate_succ_apply']
    exact step _ ih.2

/-- C4 counterexample: one valid stale frame followed by the matching frame:
the gousb variant's `Receive` fails instead of resynchronizing (the hid
variant returns the matching body). -/
theorem receiveGousb_counterexample :
    ReceiveGousb 1 [2 :: 0 :: List.replicate 62 0,
      1 :: 1 :: 171 :: List.replicate 61 0] = none ∧
    ReceiveHid 1 0 [2 :: 0 :: List.replicate 62 0,
      1 :: 1 :: 171 :: List.replicate 61 0] = some [171] := by decide

theorem unframe_of_valid {f : List Nat} (h1 : f.length = 64)
    (h2 : f.getD 1 0 ≤ 62) : V1Framer.Unframe f = some f := by
  unfold V1Framer.Unframe
  rw [if_neg (by omega), if_neg (by omega)]

/-- One `Receive` loop iteration on a well-formed frame. -/
theorem receiveHid_cons_valid {seqNo attempt : Nat} {f : List Nat}
    {rest : List (List Nat)} (h1 : f.length = 64) (h2 : f.getD 1 0 ≤ 62) :
    ReceiveHid seqNo attempt (f :: rest)
      = if f.getD 0 0 ≠ seqNo then
          (if attempt + 1 = 5 then none
            else ReceiveHid seqNo (attempt + 1) rest)
        else some (V1Frame.Body f) := by
  conv_lhs => rw [ReceiveHid]
  rw [if_neg (show ¬f.length ≠ 64 from by omega), unframe_of_valid h1 h2]
  rfl

theorem receiveHid_resync_gen (seqNo : Nat) :
    ∀ (stales : List (List Nat)) (attempt : Nat) (mf : List Nat)
      (rest : List (List Nat)),
      attempt + stales.length ≤ 4 →
      (∀ f ∈ stales, f.length = 64 ∧ f.getD 1 0 ≤ 62 ∧ f.getD 0 0 ≠ seqNo) →
      mf.length = 64 → mf.getD 1 0 ≤ 62 → mf.getD 0 0 = seqNo →
      ReceiveHid seqNo attempt (stales ++ mf :: rest)
        = some (V1Frame.Body mf) := by
  intro stales
  induction stales with
  | nil =>
    intro attempt mf rest _ _ hlen hbody hseq
    rw [List.nil_append, receiveHid_cons_valid hlen hbody,
      if_neg (show ¬mf.getD 0 0 ≠ seqNo from fun hne => hne hseq)]
  | cons f fs ih =>
    intro attempt mf rest hcnt hstale hlen hbody hseq
    obtain ⟨hf1, hf2, hf3⟩ := hstale f (by simp)
    have hrec := ih (attempt + 1) mf rest
      (by simp only [List.length_cons] at hcnt; omega)
      (fun g hg => hstale g (by simp [hg])) hlen hbody hseq
    have h5 : ¬attempt + 1 = 5 := by
      simp only [List.length_cons] at hcnt; omega
    rw [List.cons_append, receiveHid_cons_valid hf1 hf2, if_pos hf3,
      if_neg h5, hrec]

theorem receiveHid_fail_gen (seqNo : Nat) :
    ∀ (frames : List (List Nat)) (attempt : Nat) (rest : List (List Nat)),
      frames ≠ [] → attempt + frames.length = 5 →
      (∀ f ∈ frames, f.length = 64 ∧ f.getD 1 0 ≤ 62 ∧ f.getD 0 0 ≠ seqNo) →
      ReceiveHid seqNo attempt (frames ++ rest) = none := by
  intro frames
  induction frames with
  | nil => intro _ _ h; exact absurd rfl h
  | cons f fs ih =>
    intro attempt rest _ hcnt hstale
    obtain ⟨hf1, hf2, hf3⟩ := hstale f (by simp)
    by_cases h5 : attempt + 1 = 5
    · rw [List.cons_append, receiveHid_cons_valid hf1 hf2, if_pos hf3,
        if_pos h5]
    · have hfs : fs ≠ [] := by
        intro hnil
        rw [hnil] at hcnt
        simp at hcnt
        omega
      have hrec := ih (attempt + 1) rest hfs
        (by simp only [List.length_cons] at hcnt; omega)
        (fun g hg => hstale g (by simp [hg]))
      rw [List.cons_append, receiveHid_cons_valid hf1 hf2, if_pos hf3,
        if_neg h5, hrec]

/-- **C4 (amended)**: for the hid variant, `Receive` returns the matching
frame's body whenever at most 4 valid non-matching frames precede it, and
fails after 5 consecutive non-matching frames; the gousb variant fails on
the first non-matching frame (no retry). -/
theorem receiveHid_resync (seqNo : Nat) (stales : List (List Nat))
    (mf : List Nat) (rest frames rest' : List (List Nat))
    (hs : stales.length ≤ 4)
    (hstale : ∀ f ∈ stales, f.length = 64 ∧ f.getD 1 0 ≤ 62
      ∧ f.getD 0 0 ≠ seqNo)
    (hlen : mf.length = 64) (hbody : mf.getD 1 0 ≤ 62)
    (hseq : mf.getD 0 0 = seqNo)
    (hflen : frames.length = 5)
    (hframes : ∀ f ∈ frames, f.length = 64 ∧ f.getD 1 0 ≤ 62
      ∧ f.getD 0 0 ≠ seqNo) :
    ReceiveHid seqNo 0 (stales ++ mf :: rest) = some (V1Frame.Body mf) ∧
    ReceiveHid seqNo 0 (frames ++ rest') = none := by
  constructor
  · exact receiveHid_resync_gen seqNo stales 0 mf rest (by omega) hstale
      hlen hbody hseq
  · exact receiveHid_fail_gen seqNo frames 0 rest'
      (by intro h; rw [h] at hflen; simp at hflen) (by omega) hframes

/-- Witness for the amended C4: four stale frames then the match is
resynchronized; five stale frames fail. -/
theorem receiveHid_resync_witness :
    ReceiveHid 1 0 ([2 :: 0 :: List.replicate 62 0,
        2 :: 0 :: List.replicate 62 0, 2 :: 0 :: List.replicate 62 0,
        2 :: 0 :: List.replicate 62 0]
      ++ (1 :: 1 :: 171 :: List.replicate 61 0) :: []) = some [171] ∧
    ReceiveHid 1 0 ([2 :: 0 :: List.replicate 62 0,
        2 :: 0 :: List.replicate 62 0, 2 :: 0 :: List.replicate 62 0,
        2 :: 0 :: List.replicate 62 0, 2 :: 0 :: List.replicate 62 0]
      ++ []) = none := by
  have h := receiveHid_resync 1
    [2 :: 0 :: List.replicate 62 0, 2 :: 0 :: List.replicate 62 0,
      2 :: 0 :: List.replicate 62 0, 2 :: 0 :: List.replicate 62 0]
    (1 :: 1 :: 171 :: List.replicate 61 0) []
    [2 :: 0 :: List.replicate 62 0, 2 :: 0 :: List.replicate 62 0,
      2 :: 0 :: List.replicate 62 0, 2 :: 0 :: List.replicate 62 0,
      2 :: 0 :: List.replicate 62 0] []
    (by decide) (by decide) (by decide) (by decide) (by decide) (by decide)
    (by decide)
  exact ⟨h.1.trans (by decide), h.2⟩

/-- **C10**: every byte slice accepted by the version-1 unframe operation
has length exactly 64 and a declared body length of at most 62, so the body
slice `[2 : 2 + bodyLength]` lies within the frame and the sequence-number
byte exists: no accessor indexes out of range. -/
theorem unframe_accessors_in_bounds (pkg f : List Nat)
    (h : V1Framer.Unframe pkg = some f) :
    f.length = 64 ∧ V1Frame.BodyLength f ≤ 62 ∧
    2 + V1Frame.BodyLength f ≤ f.length ∧
    (V1Frame.Body f).length = V1Frame.BodyLength f ∧ 0 < f.length := by
  unfold V1Framer.Unframe at h
  split_ifs at h with h1 h2
  cases h
  have hlen : pkg.length = 64 := by omega
  have hbody : V1Frame.BodyLength pkg ≤ 62 := by
    unfold V1Frame.BodyLength; omega
  refine ⟨hlen, hbody, by omega, ?_, by omega⟩
  unfold V1Frame.Body
  simp only [List.length_take, List.length_drop, hlen]
  omega

/-- Witness for C10 at a concrete accepted frame. -/
theorem unframe_accessors_in_bounds_witness :
    (1 :: 5 :: List.replicate 62 7 : List Nat).length = 64 ∧
    V1Frame.BodyLength (1 :: 5 :: List.replicate 62 7) ≤ 62 ∧
    2 + V1Frame.BodyLength (1 :: 5 :: List.replicate 62 7)
      ≤ (1 :: 5 :: List.replicate 62 7 : List Nat).length ∧
    (V1Frame.Body (1 :: 5 :: List.replicate 62 7)).length
      = V1Frame.BodyLength (1 :: 5 :: List.replicate 62 7) ∧
    0 < (1 :: 5 :: List.replicate 62 7 : List Nat).length :=
  unframe_accessors_in_bounds (1 :: 5 :: List.replicate 62 7)
    (1 :: 5 :: List.replicate 62 7) (by decide)

/-! ## cmd: target-data argument validation (from ReadTargetData) -/

/-- The two usage errors raised before any input I/O. -/
inductive UsageError
  | noInputFiles
  | maxTwoOfImageApromLdrom
deriving DecidableEq, Repr

/-- The pre-I/O validation at the top of `ReadTargetData`: each flag records
whether the corresponding argument string is non-empty; `none` means the
function proceeds to open and read the specified inputs. -/
def readTargetDataPrecheck (image aprom ldrom needImage : Bool) :
    Option UsageError :=
  if !image && !aprom && !ldrom && needImage then some .noInputFiles
  else if !image && !aprom && !ldrom then some .maxTwoOfImageApromLdrom
  else none

/-- **C6** (code bug): zero of {image, aprom, ldrom} is rejected before any
I/O (with one of the two usage errors), but specifying the aprom/ldrom pair
together with a full image is NOT rejected — the Go condition guarding the
"Can only specify maximum of two of Image, APROM and LDROM" error tests all
three arguments for emptiness rather than for presence, so the check can
never fire on over-specified inputs and `ReadTargetData` proceeds to read
all three files. -/
theorem readTargetDataPrecheck_eval :
    readTargetDataPrecheck false false false true
        = some UsageError.noInputFiles ∧
    readTargetDataPrecheck false false false false
        = some UsageError.maxTwoOfImageApromLdrom ∧
    readTargetDataPrecheck true true true true = none ∧
    readTargetDataPrecheck true true true false = none := by decide

/-! ## cmd/n76: program and loader region split (from GetLDROMSize / APROM) -/

/-- `N76E003Config.GetLDROMSize`: the pure lookup from the decoded size
enumeration to a byte count. -/
def GetLDROMSize (s : N76E003LDROMSize) : Nat :=
  match s with
  | .N76E003LDROM0KB => 0
  | .N76E003LDROM1KB => 1024
  | .N76E003LDROM2KB => 2048
  | .N76E003LDROM3KB => 3072
  | .N76E003LDROM4KB => 4096

/-- The raw selector codes of `N76E003LDROMSize` (a Go `byte`-typed enum,
declared with iota). -/
def ldromSizeCode (s : N76E003LDROMSize) : Nat :=
  match s with
  | .N76E003LDROM0KB => 0
  | .N76E003LDROM1KB => 1
  | .N76E003LDROM2KB => 2
  | .N76E003LDROM3KB => 3
  | .N76E003LDROM4KB => 4

/-- `GetLDROMSize` over the raw selector byte: the Go switch covers codes
0..4 and any other value hits `panic("Invalid size")` (modelled `none`). -/
def getLDROMSizeCode (code : Nat) : Option Nat :=
  match code with
  | 0 => some 0
  | 1 => some 1024
  | 2 => some 2048
  | 3 => some 3072
  | 4 => some 4096
  | _ => none

/-- `target.Definition` N76E003: `ProgMemSize: 12 * 1024`. -/
def N76E003ProgMemSize : Nat := 12 * 1024

/-- `TargetData.APROM` size derivation:
`ProgMemSize - cfg.GetLDROMSize()`. -/
def apromSize (cfg : N76E003Config) : Nat :=
  N76E003ProgMemSize - GetLDROMSize cfg.LDROMSize

/-- **C7**: for every decodable configuration, the derived program-region
size plus the loader-region size equals the target's program memory size;
the loader-region size is a pure lookup yielding one of 0, 1024, 2048,
3072 or 4096 bytes; and every selector code outside the defined enumeration
aborts (returns no size) rather than yielding a value. -/
theorem apromSize_GetLDROMSize_split (buf : List Nat) (cfg : N76E003Config)
    (h : UnmarshalBinary buf = some cfg) :
    apromSize cfg + GetLDROMSize cfg.LDROMSize = N76E003ProgMemSize ∧
    GetLDROMSize cfg.LDROMSize ∈ [0, 1024, 2048, 3072, 4096] ∧
    getLDROMSizeCode (ldromSizeCode cfg.LDROMSize)
      = some (GetLDROMSize cfg.LDROMSize) ∧
    (∀ n : Nat, getLDROMSizeCode (n + 5) = none) := by
  refine ⟨?_, ?_, ?_, fun n => rfl⟩
  · cases hs : cfg.LDROMSize <;>
      simp [apromSize, GetLDROMSize, N76E003ProgMemSize, hs]
  · cases hs : cfg.LDROMSize <;> simp [GetLDROMSize, hs]
  · cases hs : cfg.LDROMSize <;> simp [GetLDROMSize, ldromSizeCode,
      getLDROMSizeCode, hs]

/-- Witness for C7 at the all-0xFF configuration bytes. -/
theorem apromSize_GetLDROMSize_split_witness :
    UnmarshalBinary [255, 255, 255, 255] ≠ none ∧
    (∀ cfg, UnmarshalBinary [255, 255, 255, 255] = some cfg →
      apromSize cfg + GetLDROMSize cfg.LDROMSize = N76E003ProgMemSize) := by
  refine ⟨by decide, fun cfg h => ?_⟩
  exact (apromSize_GetLDROMSize_split [255, 255, 255, 255] cfg h).1


/-! ## ihex writer (from Writer.write / Writer.Write) -/

/-- 2^32, the modulus of Go `uint32` arithmetic. -/
def U32 : Nat := 4294967296

/-- `Writer.write`: compute `off := addr - w.seg` in `uint32` arithmetic; if
`off` exceeds 16 bits, rebase `w.seg := addr & 0xFFFF0000`, emit an
ExtendedLinearAddress record carrying `uint16(w.seg >> 16)`, recompute the
offset, then emit one Data record with `uint16(off)` and the bytes; an empty
buffer emits nothing. Returns the new `seg` and the emitted records. -/
def writeStep (seg addr : Nat) (buf : List Nat) : Nat × List Packet :=
  if buf = [] then (seg, [])
  else
    let off := (addr + (U32 - seg % U32)) % U32
    if off > 0xFFFF then
      let seg' := addr - addr % 0x10000
      let off' := (addr + (U32 - seg' % U32)) % U32
      (seg', [ExtendedLinearAddressPacket (seg' / 0x10000 % 0x10000),
        DataPacket (off' % 0x10000) buf])
    else (seg, [DataPacket (off % 0x10000) buf])

/-- The `for len(buf) > 32` loop of `Writer.Write` followed by the final
`write`, with an explicit fuel argument (one unit per loop entry; the
wrapper supplies `buf.length`, which always suffices). -/
def writeLoopAux : Nat → Nat → Nat → List Nat → Nat × List Packet
  | 0, seg, addr, buf => writeStep seg addr buf
  | fuel + 1, seg, addr, buf =>
    if buf.length > 32 then
      let r1 := writeStep seg addr (buf.take 32)
      let r2 := writeLoopAux fuel r1.1 ((addr + 32) % U32) (buf.drop 32)
      (r2.1, r1.2 ++ r2.2)
    else writeStep seg addr buf

/-- The 32-byte chunking loop of `Writer.Write`. -/
def writeLoop (seg addr : Nat) (buf : List Nat) : Nat × List Packet :=
  writeLoopAux buf.length seg addr buf

/-- `Writer.Write`: when the address is not 32-byte aligned and the buffer
is longer than the distance to the next 32-byte boundary, write a short
leading chunk first; then the 32-byte loop and the remainder. -/
def Write (seg addr : Nat) (buf : List Nat) : Nat × List Packet :=
  let lead := 32 - addr % 32
  if addr % 32 ≠ 0 ∧ buf.length > lead then
    let r1 := writeStep seg addr (buf.take lead)
    let r2 := writeLoop r1.1 ((addr + lead) % U32) (buf.drop lead)
    (r2.1, r1.2 ++ r2.2)
  else writeLoop seg addr buf

/-- A sequence of `Write` calls on one writer; `NewWriter` starts with
`seg = 0`. -/
def writeSeq : Nat → List (Nat × List Nat) → Nat × List Packet
  | seg, [] => (seg, [])
  | seg, (addr, buf) :: calls =>
    let r1 := Write seg addr buf
    let r2 := writeSeq r1.1 calls
    (r2.1, r1.2 ++ r2.2)

theorem writeStep_sound {seg addr : Nat} (buf : List Nat)
    (hseg16 : seg % 0x10000 = 0) (hseg : seg < U32) (haddr : addr < U32)
    (hchunk : addr % 32 + buf.length ≤ 32) :
    (writeStep seg addr buf).1 % 0x10000 = 0 ∧
    (writeStep seg addr buf).1 < U32 ∧
    ∀ p ∈ (writeStep seg addr buf).2, p.Ty = 0 →
      p.Address + p.Data.length ≤ 0x10000 := by
  have hmm32 : ∀ x : Nat, x % 65536 % 32 = x % 32 := fun x =>
    Nat.mod_mod_of_dvd x (by norm_num)
  unfold writeStep
  by_cases hb : buf = []
  · simp [hb, hseg16, hseg]
  · rw [if_neg hb]
    simp only [U32] at *
    by_cases hoff : (addr + (4294967296 - seg % 4294967296)) % 4294967296
        > 0xFFFF
    · rw [if_pos hoff]
      refine ⟨by omega, by omega, ?_⟩
      intro p hp hty
      rcases List.mem_cons.1 hp with hp1 | hp2
      · rw [hp1] at hty
        simp [ExtendedLinearAddressPacket] at hty
      · have hp1 : p = DataPacket ((addr + (4294967296
            - (addr - addr % 65536) % 4294967296)) % 4294967296 % 65536)
            buf := by simpa using hp2
        rw [hp1]
        simp only [DataPacket]
        have ha : (addr + (4294967296 - (addr - addr % 65536) % 4294967296))
            % 4294967296 % 65536 = addr % 65536 := by omega
        rw [ha]
        have h32 := hmm32 addr
        omega
    · rw [if_neg hoff]
      refine ⟨hseg16, hseg, ?_⟩
      intro p hp hty
      have hp1 : p = DataPacket ((addr + (4294967296 - seg % 4294967296))
          % 4294967296 % 65536) buf := by simpa using hp
      rw [hp1]
      simp only [DataPacket]
      have hseg' : seg % 4294967296 = seg := by omega
      rw [hseg'] at hoff ⊢
      have hle : (addr + (4294967296 - seg)) % 4294967296 = addr - seg ∧
          seg ≤ addr := by constructor <;> omega
      have h32a := hmm32 (addr - seg)
      have hsm : seg % 32 = 0 := by omega
      omega

theorem writeLoopAux_sound :
    ∀ (fuel : Nat) (buf : List Nat) (seg addr : Nat), buf.length ≤ fuel →
      seg % 0x10000 = 0 → seg < U32 → addr < U32 →
      (addr % 32 = 0 ∨ addr % 32 + buf.length ≤ 32) →
      (writeLoopAux fuel seg addr buf).1 % 0x10000 = 0 ∧
      (writeLoopAux fuel seg addr buf).1 < U32 ∧
      ∀ p ∈ (writeLoopAux fuel seg addr buf).2, p.Ty = 0 →
        p.Address + p.Data.length ≤ 0x10000 := by
  intro fuel
  induction fuel with
  | zero =>
    intro buf seg addr hle h1 h2 h3 h4
    have hnil : buf = [] := List.eq_nil_of_length_eq_zero (by omega)
    subst hnil
    exact writeStep_sound [] h1 h2 h3 (by simp; omega)
  | succ n ih =>
    intro buf seg addr hle h1 h2 h3 h4
    simp only [writeLoopAux]
    by_cases hlen : buf.length > 32
    · rw [if_pos hlen]
      have haddr0 : addr % 32 = 0 := by rcases h4 with h | h <;> omega
      have hs1 := writeStep_sound (buf.take 32) h1 h2 h3
        (by simp [List.length_take]; omega)
      have hs2 := ih (buf.drop 32) (writeStep seg addr (buf.take 32)).1
        ((addr + 32) % U32) (by simp [List.length_drop]; omega)
        hs1.1 hs1.2.1 (by simp only [U32]; omega)
        (Or.inl (by simp only [U32]; omega))
      refine ⟨hs2.1, hs2.2.1, ?_⟩
      intro p hp hty
      rcases List.mem_append.1 hp with h | h
      · exact hs1.2.2 p h hty
      · exact hs2.2.2 p h hty
    · rw [if_neg hlen]
      exact writeStep_sound buf h1 h2 h3
        (by rcases h4 with h | h <;> omega)

theorem Write_sound {seg addr : Nat} (buf : List Nat)
    (hseg16 : seg % 0x10000 = 0) (hseg : seg < U32) (haddr : addr < U32) :
    (Write seg addr buf).1 % 0x10000 = 0 ∧ (Write seg addr buf).1 < U32 ∧
    ∀ p ∈ (Write seg addr buf).2, p.Ty = 0 →
      p.Address + p.Data.length ≤ 0x10000 := by
  unfold Write writeLoop
  by_cases hc : addr % 32 ≠ 0 ∧ buf.length > 32 - addr % 32
  · rw [if_pos hc]
    have hs1 := writeStep_sound (buf.take (32 - addr % 32)) hseg16 hseg haddr
      (by simp [List.length_take]; omega)
    have hs2 := writeLoopAux_sound (buf.drop (32 - addr % 32)).length
      (buf.drop (32 - addr % 32))
      (writeStep seg addr (buf.take (32 - addr % 32))).1
      ((addr + (32 - addr % 32)) % U32) le_rfl hs1.1 hs1.2.1
      (by simp only [U32]; omega) (Or.inl (by simp only [U32]; omega))
    refine ⟨hs2.1, hs2.2.1, ?_⟩
    intro p hp hty
    rcases List.mem_append.1 hp with h | h
    · exact hs1.2.2 p h hty
    · exact hs2.2.2 p h hty
  · rw [if_neg hc]
    refine writeLoopAux_sound buf.length buf seg addr le_rfl hseg16 hseg
      haddr ?_
    rcases Nat.eq_zero_or_pos (addr % 32) with h | h
    · exact Or.inl h
    · right
      have : ¬buf.length > 32 - addr % 32 := by
        intro hgt
        exact hc ⟨by omega, hgt⟩
      omega

theorem writeSeq_sound :
    ∀ (calls : List (Nat × List Nat)) (seg : Nat),
      (∀ c ∈ calls, c.1 < U32) → seg % 0x10000 = 0 → seg < U32 →
      ∀ p ∈ (writeSeq seg calls).2, p.Ty = 0 →
        p.Address + p.Data.length ≤ 0x10000 := by
  intro calls
  induction calls with
  | nil => intro seg _ _ _ p hp; simp [writeSeq] at hp
  | cons c calls ih =>
    intro seg hc h1 h2 p hp hty
    obtain ⟨a, b⟩ := c
    have ha : a < U32 := hc (a, b) (by simp)
    have hw := Write_sound b h1 h2 ha
    simp only [writeSeq] at hp
    rcases List.mem_append.1 hp with h | h
    · exact hw.2.2 p h hty
    · exact ih (Write seg a b).1 (fun d hd => hc d (by simp [hd])) hw.1
        hw.2.1 p h hty

/-- **C5**: over any sequence of `Write` calls on a fresh writer, every
emitted Data record's declared 16-bit offset plus payload length stays
within one 64KB window (never crosses a 64KB boundary), and the internal
`write` step rebases — setting `seg := addr & 0xFFFF0000` and emitting an
ExtendedLinearAddress record with the new base's upper 16 bits before the
Data record — exactly when the offset from the current base exceeds 16
bits. -/
theorem writer_no_boundary_crossing (calls : List (Nat × List Nat))
    (hcalls : ∀ c ∈ calls, c.1 < U32) :
    (∀ p ∈ (writeSeq 0 calls).2, p.Ty = 0 →
      p.Address + p.Data.length ≤ 0x10000) ∧
    (∀ seg addr buf, buf ≠ [] →
      (if (addr + (U32 - seg % U32)) % U32 > 0xFFFF then
        (writeStep seg addr buf).1 = addr - addr % 0x10000 ∧
        (writeStep seg addr buf).2
          = [ExtendedLinearAddressPacket
              ((addr - addr % 0x10000) / 0x10000 % 0x10000),
            DataPacket (((addr + (U32 - (addr - addr % 0x10000) % U32))
              % U32) % 0x10000) buf]
      else (writeStep seg addr buf).1 = seg ∧
        (writeStep seg addr buf).2
          = [DataPacket (((addr + (U32 - seg % U32)) % U32) % 0x10000)
              buf])) := by
  constructor
  · exact writeSeq_sound calls 0 hcalls (by norm_num) (by norm_num [U32])
  · intro seg addr buf hb
    unfold writeStep
    rw [if_neg hb]
    by_cases hoff : (addr + (U32 - seg % U32)) % U32 > 0xFFFF
    · rw [if_pos hoff, if_pos hoff]
      exact ⟨rfl, rfl⟩
    · rw [if_neg hoff, if_neg hoff]
      exact ⟨rfl, rfl⟩

/-- Witness for C5: writing 32 bytes at `0xFFF0` splits at the 64KB
boundary; the first emitted Data record occupies `[0xFFF0, 0x10000)`. -/
theorem writer_no_boundary_crossing_witness :
    DataPacket 0xFFF0 (List.replicate 16 171)
        ∈ (writeSeq 0 [(0xFFF0, List.replicate 32 171)]).2 ∧
    (DataPacket 0xFFF0 (List.replicate 16 171)).Address
      + (DataPacket 0xFFF0 (List.replicate 16 171)).Data.length ≤ 0x10000 :=
  ⟨by decide,
    (writer_no_boundary_crossing [(0xFFF0, List.replicate 32 171)]
      (by decide)).1 _ (by decide) (by decide)⟩


/-! ## C8: chunk structure of Write -/

/-- The fixed 32-byte chunking, with fuel like `writeLoopAux`. -/
def chunks32Aux : Nat → Nat → List Nat → List (Nat × List Nat)
  | 0, addr, buf => [(addr, buf)]
  | fuel + 1, addr, buf =>
    if buf.length > 32 then
      (addr, buf.take 32) :: chunks32Aux fuel ((addr + 32) % U32) (buf.drop 32)
    else [(addr, buf)]

/-- Modelled from the spec: the chunk split of `Write(address, bytes)` — a
short leading chunk sized to reach the next 32-byte boundary when the
address is not 32-byte aligned, then fixed 32-byte chunks, then any
remainder shorter than 32 bytes. -/
def specChunks (addr : Nat) (buf : List Nat) : List (Nat × List Nat) :=
  let lead := 32 - addr % 32
  if addr % 32 ≠ 0 ∧ buf.length > lead then
    (addr, buf.take lead)
      :: chunks32Aux (buf.drop lead).length ((addr + lead) % U32)
        (buf.drop lead)
  else chunks32Aux buf.length addr buf

/-- Pass each chunk through the internal `write` step, threading the
segment base. -/
def emitChunks : Nat → List (Nat × List Nat) → Nat × List Packet
  | seg, [] => (seg, [])
  | seg, (addr, buf) :: rest =>
    let r1 := writeStep seg addr buf
    let r2 := emitChunks r1.1 rest
    (r2.1, r1.2 ++ r2.2)

theorem writeLoopAux_chunks :
    ∀ (fuel : Nat) (buf : List Nat) (seg addr : Nat),
      writeLoopAux fuel seg addr buf
        = emitChunks seg (chunks32Aux fuel addr buf) := by
  intro fuel
  induction fuel with
  | zero =>
    intro buf seg addr
    simp [writeLoopAux, chunks32Aux, emitChunks]
  | succ n ih =>
    intro buf seg addr
    simp only [writeLoopAux, chunks32Aux]
    by_cases h : buf.length > 32
    · rw [if_pos h, if_pos h]
      simp only [emitChunks, ih]
    · rw [if_neg h, if_neg h]
      simp [emitChunks]

/-- **C8**: the public `Write` call processes exactly the chunk list the
spec describes — a short leading chunk up to the next 32-byte boundary when
the address is unaligned, then fixed 32-byte chunks, then the remainder —
each through the internal `write` step; and writing 40 bytes at address
`0x0000` on a fresh writer produces exactly two Data records (32 bytes then
8 bytes) and no ExtendedLinearAddress record. -/
theorem write_chunk_structure :
    (∀ (seg addr : Nat) (buf : List Nat),
      Write seg addr buf = emitChunks seg (specChunks addr buf)) ∧
    Write 0 0 (List.replicate 40 171)
      = (0, [DataPacket 0 (List.replicate 32 171),
          DataPacket 32 (List.replicate 8 171)]) := by
  constructor
  · intro seg addr buf
    unfold Write specChunks writeLoop
    by_cases h : addr % 32 ≠ 0 ∧ buf.length > 32 - addr % 32
    · rw [if_pos h, if_pos h]
      simp only [emitChunks, writeLoopAux_chunks]
    · rw [if_neg h, if_neg h]
      exact writeLoopAux_chunks _ _ _ _
  · decide

end Nuvoprog
